import Mathlib

/-!
# Verification of the makershub reservation engine and its admin console

This development embeds, in Lean 4:

* the workstation-list parsing performed by `handleCreate` in
  `admin-frontend/src/components/SiteManagement.jsx` (lines 87-120), and
* the resource reservation engine described by the design specification
  (resource catalog, borrow ledger, occupancy index, and the operation set
  `CreateSite`, `AddWorkstations`, `RemoveWorkstations`, `RenameSite`,
  `DeleteSite`, `Submit`, `Approve`, `Reject`, `Return`, `Revoke`).

The engine itself is not present in the repository sources (only its
frontend caller is), so its definitions are modelled from the
specification's words; each such definition says so in its doc comment.
-/

namespace MakersHub

/-! ## Part 1: the `handleCreate` workstation parsing (SiteManagement.jsx)

The JavaScript code is

```js
const workstations = formData.workstations
  .split(',')
  .map(num => parseInt(num.trim()))
  .filter(num => !isNaN(num));
if (workstations.length === 0) { alert(...); return; }
fetch(`${API_BASE}/create`, { ..., body: JSON.stringify({ site, workstations }) })
```

We model strings as they are split and trimmed character by character,
mirroring `String.prototype.split(',')`, `String.prototype.trim` and the
JavaScript `parseInt` (radix inferred: optional sign, `0x`/`0X` hex prefix,
longest digit prefix, `NaN` when no digit is consumed, modelled as `none`).
A successfully parsed token yields a JavaScript number — an IEEE-754
binary64 value — so the mathematical integer read from the digits is
rounded to the nearest double (ties to even) and overflows to `Infinity`;
`JsNum` represents the possible non-`NaN` results. All the characters
involved (ECMAScript whitespace, digits, the comma) lie in the Basic
Multilingual Plane, where Lean's code points coincide with JavaScript's
UTF-16 code units. -/

/-- Characters skipped by `String.prototype.trim` (and by `parseInt`):
the ECMAScript WhiteSpace production — TAB, VT, FF, SP, NBSP, ZWNBSP and
the Unicode Zs category — together with the LineTerminator production
(LF, CR, LS, PS). -/
def isJsWhitespace (c : Char) : Bool :=
  c = ' ' || c = '\t' || c = '\n' || c = '\r' ||
  c.toNat = 0x0B || c.toNat = 0x0C || c.toNat = 0xA0 || c.toNat = 0xFEFF ||
  c.toNat = 0x1680 || (0x2000 ≤ c.toNat && c.toNat ≤ 0x200A) ||
  c.toNat = 0x2028 || c.toNat = 0x2029 || c.toNat = 0x202F ||
  c.toNat = 0x205F || c.toNat = 0x3000

/-- `String.prototype.trim`: drop whitespace from both ends. -/
def trimChars (cs : List Char) : List Char :=
  ((cs.dropWhile isJsWhitespace).reverse.dropWhile isJsWhitespace).reverse

/-- `String.prototype.split(',')`: split into comma-separated tokens;
the empty string yields one empty token, like JavaScript. -/
def splitCommas : List Char → List (List Char)
  | [] => [[]]
  | c :: rest =>
    match splitCommas rest with
    | [] => if c = ',' then [[], []] else [[c]]
    | t :: ts => if c = ',' then [] :: t :: ts else (c :: t) :: ts

/-- Numeric value of a digit character in the given base, if it is one. -/
def digitVal (base : Nat) (c : Char) : Option Nat :=
  let v : Nat :=
    if '0' ≤ c ∧ c ≤ '9' then c.toNat - '0'.toNat
    else if 'a' ≤ c ∧ c ≤ 'z' then c.toNat - 'a'.toNat + 10
    else if 'A' ≤ c ∧ c ≤ 'Z' then c.toNat - 'A'.toNat + 10
    else base
  if v < base then some v else none

/-- Longest digit prefix in the given base, folded into a value;
`none` when no digit is consumed (JavaScript `parseInt` returns `NaN`). -/
def parseDigits (base : Nat) (acc : Option Nat) : List Char → Option Nat
  | [] => acc
  | c :: rest =>
    match digitVal base c with
    | some v => parseDigits base (some (acc.getD 0 * base + v)) rest
    | none => acc

/-- Mathematical integer value of the longest digit prefix, before the
number is converted to a double: a `0x`/`0X` prefix selects base 16,
otherwise base 10 (ECMAScript `parseInt` with no explicit radix). -/
def parseIntMagNat : List Char → Option Nat
  | '0' :: 'x' :: rest => parseDigits 16 none rest
  | '0' :: 'X' :: rest => parseDigits 16 none rest
  | cs => parseDigits 10 none cs

/-- A non-`NaN` JavaScript number as produced by `parseInt`: an
integer-valued finite double, or an infinity. -/
inductive JsNum
  | finite (v : Int)
  | posInf
  | negInf
deriving DecidableEq

/-- Bit length of a natural number (`0` for `0`), written with an
explicit fuel argument so that it reduces structurally; called with
`fuel = n`, which always suffices. -/
def bitLen (fuel n : Nat) : Nat :=
  match fuel, n with
  | 0, _ => 0
  | _, 0 => 0
  | fuel + 1, n => bitLen fuel (n / 2) + 1

/-- Round a natural number to the nearest IEEE-754 binary64 value
(round-to-nearest, ties-to-even): exact below `2^53`, otherwise the
53-bit significand is rounded at the dropped-bit boundary; `none` when
the result overflows to `Infinity` (at `2^1024`). -/
def roundNat64 (n : Nat) : Option Nat :=
  if n < 2 ^ 53 then some n
  else
    let k := bitLen n n - 53
    let q := n / 2 ^ k
    let r := n % 2 ^ k
    let half := 2 ^ (k - 1)
    let q' := if half < r then q + 1 else if r < half then q else
      if q % 2 = 0 then q else q + 1
    let v := q' * 2 ^ k
    if v < 2 ^ 1024 then some v else none

/-- Magnitude part of JavaScript `parseInt`: the digit value converted to
a double (rounded, overflowing to `Infinity`). -/
def parseIntMag (cs : List Char) : Option JsNum :=
  (parseIntMagNat cs).map fun n =>
    match roundNat64 n with
    | some v => JsNum.finite (v : Int)
    | none => JsNum.posInf

/-- JavaScript unary negation on a non-`NaN` number. -/
def jsNeg : JsNum → JsNum
  | .finite v => .finite (-v)
  | .posInf => .negInf
  | .negInf => .posInf

/-- JavaScript `parseInt(s)` on an already-trimmed token: optional sign,
then the longest valid digit prefix converted to a double; `none` models
`NaN`. -/
def parseIntJS (cs : List Char) : Option JsNum :=
  match cs with
  | '-' :: rest => (parseIntMag rest).map jsNeg
  | '+' :: rest => parseIntMag rest
  | _ => parseIntMag cs

/-- The parsed workstation list of `handleCreate`: split the input on
commas, trim each token, parse it with `parseInt`, and drop the `NaN`s
(`isNaN` is false for infinities, so they are kept). No de-duplication is
performed. -/
def parseWorkstations (input : String) : List JsNum :=
  ((splitCommas input.data).map (fun t => parseIntJS (trimChars t))).filterMap id

/-- The body `handleCreate` sends to the `/create` endpoint (the
`workstations` array of JavaScript numbers; `JSON.stringify` later
renders an infinity as `null`), or `none` when the parsed list is empty
(the handler alerts and returns without issuing a request). -/
def handleCreateBody (site : String) (wsInput : String) : Option (String × List JsNum) :=
  let workstations := parseWorkstations wsInput
  if workstations.isEmpty then none
  else some (site, workstations)

/-! ## Part 2: the reservation engine

The engine's code is not part of the repository sources (the admin console
only calls it over REST), so every definition below is modelled from the
specification: §3 (data model), §4.1 (Resource Catalog), §4.2 (Borrow
Ledger state machine), §4.3 (Occupancy Index), §7 (error taxonomy).
-/

/-- Modelled from the spec: a half-open time window [start, end); the
field `end` is called `stop` here because `end` is a Lean keyword. -/
structure Window where
  start : Nat
  stop : Nat
deriving DecidableEq

/-- Modelled from the spec: the five borrow-request states of §4.2. -/
inductive RState
  | pending
  | approved
  | rejected
  | returned
  | revoked
deriving DecidableEq

/-- Modelled from the spec: `Rejected`, `Returned` and `Revoked` are the
terminal states of the §4.2 state machine. -/
def RState.isTerminal : RState → Bool
  | .rejected => true
  | .returned => true
  | .revoked => true
  | _ => false

/-- Modelled from the spec: the states whose windows block a new `Submit`
(`Pending` or `Approved`). -/
def RState.isActive : RState → Bool
  | .pending => true
  | .approved => true
  | _ => false

/-- Modelled from the spec: a workstation is identified by the pair
(site name, number). -/
structure WS where
  site : String
  number : Nat
deriving DecidableEq

/-- Modelled from the spec: a borrow-request record of the Ledger. -/
structure BorrowRequest where
  id : Nat
  ws : WS
  borrower : String
  purpose : String
  window : Window
  state : RState
  review : Option String
deriving DecidableEq

/-- Modelled from the spec: a site holds a name and its workstation
numbers. -/
structure Site where
  name : String
  numbers : List Nat
deriving DecidableEq

/-- Modelled from the spec: the engine state — Resource Catalog (`sites`),
Borrow Ledger (`ledger`, append-only), Occupancy Index (`occ`, mapping a
workstation to the id of its occupying request), and a fresh-id counter. -/
structure EState where
  sites : List Site
  ledger : List BorrowRequest
  occ : List (WS × Nat)
  nextId : Nat
deriving DecidableEq

/-- Modelled from the spec: the §7 error taxonomy. -/
inductive Err
  | notFound
  | conflict
  | invalidArgument
  | resourceBusy
  | windowConflict
  | invalidState
deriving DecidableEq

/-- The empty engine state. -/
def init : EState := ⟨[], [], [], 0⟩

/-- Look a site up by name in the Catalog. -/
def findSite (st : EState) (name : String) : Option Site :=
  st.sites.find? (fun s => decide (s.name = name))

/-- Whether the workstation exists (its number is a member of its site's
set). -/
def wsExists (st : EState) (w : WS) : Bool :=
  match findSite st w.site with
  | some s => s.numbers.contains w.number
  | none => false

/-- Occupancy Index lookup: the id of the occupying request, if any. -/
def occLookup (st : EState) (w : WS) : Option Nat :=
  (st.occ.find? (fun e => decide (e.1 = w))).map (fun e => e.2)

/-- Set the Occupancy Index entry of a workstation (replacing any previous
entry for it). -/
def occSet (st : EState) (w : WS) (i : Nat) : EState :=
  { st with occ := (w, i) :: st.occ.filter (fun e => !decide (e.1 = w)) }

/-- Clear the Occupancy Index entry of a workstation. -/
def occClear (st : EState) (w : WS) : EState :=
  { st with occ := st.occ.filter (fun e => !decide (e.1 = w)) }

/-- Look a borrow request up by id in the Ledger. -/
def findReq (st : EState) (i : Nat) : Option BorrowRequest :=
  st.ledger.find? (fun r => decide (r.id = i))

/-- Transition the request with the given id to a new state, recording a
reviewer comment when one is supplied. -/
def transitionReq (l : List BorrowRequest) (i : Nat) (s : RState)
    (rc : Option String) : List BorrowRequest :=
  l.map fun r =>
    if r.id = i then
      { r with state := s, review := match rc with | some c => some c | none => r.review }
    else r

/-- Apply a function to the site with the given name. -/
def updateSite (st : EState) (name : String) (f : Site → Site) : EState :=
  { st with sites := st.sites.map (fun s => if s.name = name then f s else s) }

/-- Modelled from the spec: `IsOccupied(workstation)` of §4.3. -/
def IsOccupied (st : EState) (w : WS) : Bool :=
  (occLookup st w).isSome

/-- Modelled from the spec: `OccupiedCount(site)` of §4.3 — the number of
the site's workstations holding an Occupancy Index entry. -/
def OccupiedCount (st : EState) (name : String) : Nat :=
  match findSite st name with
  | some s => (s.numbers.filter (fun n => IsOccupied st ⟨name, n⟩)).length
  | none => 0

/-- Modelled from the spec: `AvailableCount(site)` of §4.3 — the number of
the site's workstations free in the Occupancy Index. -/
def AvailableCount (st : EState) (name : String) : Nat :=
  match findSite st name with
  | some s => (s.numbers.filter (fun n => !IsOccupied st ⟨name, n⟩)).length
  | none => 0

/-- Total workstation count of a site. -/
def TotalCount (st : EState) (name : String) : Nat :=
  match findSite st name with
  | some s => s.numbers.length
  | none => 0

/-- Modelled from the spec: the §4.2 overlap test on half-open windows,
`existing.start < new.end && new.start < existing.end`. -/
def overlaps (existing newWin : Window) : Bool :=
  decide (existing.start < newWin.stop) && decide (newWin.start < existing.stop)

/-- Modelled from the spec: `CreateSite(name, initialNumbers)` (§4.1) —
`Conflict` if the name exists, `InvalidArgument` if the numbers are empty,
duplicated, or not positive (§3 requires positive numbers); on success
registers the site with exactly the given set. -/
def CreateSite (st : EState) (name : String) (nums : List Nat) : Except Err EState :=
  if (findSite st name).isSome then .error .conflict
  else if nums.isEmpty then .error .invalidArgument
  else if ¬ nums.Nodup then .error .invalidArgument
  else if ¬ nums.all (fun n => decide (0 < n)) then .error .invalidArgument
  else .ok { st with sites := ⟨name, nums⟩ :: st.sites }

/-- Modelled from the spec: `AddWorkstations(siteName, numbers)` (§4.1) —
`NotFound` for an unknown site, `InvalidArgument` for an empty, duplicated
or non-positive number list, `Conflict` if any number already belongs to
the site; all-or-nothing append on success. -/
def AddWorkstations (st : EState) (name : String) (nums : List Nat) : Except Err EState :=
  match findSite st name with
  | none => .error .notFound
  | some s =>
    if nums.isEmpty then .error .invalidArgument
    else if ¬ nums.Nodup then .error .invalidArgument
    else if ¬ nums.all (fun n => decide (0 < n)) then .error .invalidArgument
    else if nums.any (fun n => s.numbers.contains n) then .error .conflict
    else .ok (updateSite st name (fun s0 => { s0 with numbers := s0.numbers ++ nums }))

/-- Modelled from the spec: `RemoveWorkstations(siteName, numbers)` (§4.1)
— `NotFound` for an unknown site or number, `ResourceBusy` if any
requested workstation has an active Occupancy Index entry; all-or-nothing
removal on success. -/
def RemoveWorkstations (st : EState) (name : String) (nums : List Nat) : Except Err EState :=
  match findSite st name with
  | none => .error .notFound
  | some s =>
    if ¬ nums.all (fun n => s.numbers.contains n) then .error .notFound
    else if nums.any (fun n => IsOccupied st ⟨name, n⟩) then .error .resourceBusy
    else .ok (updateSite st name
      (fun s0 => { s0 with numbers := s0.numbers.filter (fun n => !nums.contains n) }))

/-- Re-key a workstation identity under a site rename. -/
def renameWS (old newName : String) (w : WS) : WS :=
  if w.site = old then ⟨newName, w.number⟩ else w

/-- Modelled from the spec: `RenameSite(oldName, newName)` (§4.1) —
`Conflict` if the new name exists, `NotFound` if the old one does not;
otherwise atomically re-keys the site and all workstation/ledger/index
references. -/
def RenameSite (st : EState) (old newName : String) : Except Err EState :=
  if (findSite st newName).isSome then .error .conflict
  else match findSite st old with
    | none => .error .notFound
    | some _ => .ok
      { st with
        sites := st.sites.map (fun s => if s.name = old then { s with name := newName } else s),
        ledger := st.ledger.map (fun r => { r with ws := renameWS old newName r.ws }),
        occ := st.occ.map (fun e => (renameWS old newName e.1, e.2)) }

/-- Modelled from the spec: `DeleteSite(name)` (§4.1) — `NotFound` for an
unknown site, `ResourceBusy` if the site's occupied-workstation count (via
the Occupancy Index) is nonzero; on success removes the site while the
Ledger keeps all its historical records. -/
def DeleteSite (st : EState) (name : String) : Except Err EState :=
  match findSite st name with
  | none => .error .notFound
  | some _ =>
    if OccupiedCount st name ≠ 0 then .error .resourceBusy
    else .ok { st with sites := st.sites.filter (fun s => !decide (s.name = name)) }

/-- Modelled from the spec: `Submit(workstation, borrower, purpose,
window)` (§4.2) — `NotFound` if the workstation does not exist,
`InvalidArgument` unless start < end (§7), `WindowConflict` if the window
overlaps an existing `Pending` or `Approved` request on the same
workstation; on success appends a `Pending` record and does not touch the
Occupancy Index. -/
def Submit (st : EState) (w : WS) (borrower purpose : String) (win : Window) :
    Except Err EState :=
  if ¬ wsExists st w then .error .notFound
  else if ¬ (win.start < win.stop) then .error .invalidArgument
  else if st.ledger.any
      (fun r => decide (r.ws = w) && r.state.isActive && overlaps r.window win) then
    .error .windowConflict
  else .ok
    { st with
      ledger := ⟨st.nextId, w, borrower, purpose, win, .pending, none⟩ :: st.ledger,
      nextId := st.nextId + 1 }

/-- Modelled from the spec: `Approve(requestID, reviewerComment)` (§4.2) —
`NotFound` for an unknown request or workstation, `InvalidState` unless
the record is `Pending`, `WindowConflict` if another request on the same
workstation has since become `Approved` with an overlapping window; on
success transitions to `Approved` and marks the workstation occupied. -/
def Approve (st : EState) (i : Nat) (rc : String) : Except Err EState :=
  match findReq st i with
  | none => .error .notFound
  | some r =>
    if ¬ (r.state = .pending) then .error .invalidState
    else if ¬ wsExists st r.ws then .error .notFound
    else if st.ledger.any (fun r2 => !decide (r2.id = i) && decide (r2.ws = r.ws) &&
        decide (r2.state = .approved) && overlaps r2.window r.window) then
      .error .windowConflict
    else .ok (occSet { st with ledger := transitionReq st.ledger i .approved (some rc) } r.ws i)

/-- Modelled from the spec: `Reject(requestID, reviewerComment)` (§4.2) —
fails with `InvalidState` unless the record is `Pending`; transitions to
`Rejected` with no occupancy change. -/
def Reject (st : EState) (i : Nat) (rc : String) : Except Err EState :=
  match findReq st i with
  | none => .error .notFound
  | some r =>
    if ¬ (r.state = .pending) then .error .invalidState
    else .ok { st with ledger := transitionReq st.ledger i .rejected (some rc) }

/-- Modelled from the spec: `Return(requestID)` (§4.2) — fails with
`InvalidState` unless the record is `Approved`; transitions to `Returned`
and clears the occupancy entry for that workstation. -/
def ReturnReq (st : EState) (i : Nat) : Except Err EState :=
  match findReq st i with
  | none => .error .notFound
  | some r =>
    if ¬ (r.state = .approved) then .error .invalidState
    else .ok (occClear { st with ledger := transitionReq st.ledger i .returned none } r.ws)

/-- Modelled from the spec: `Revoke(requestID, reviewerComment)` (§4.2) —
fails with `InvalidState` unless the record is `Approved`; transitions to
`Revoked` and clears the occupancy entry for that workstation. -/
def Revoke (st : EState) (i : Nat) (rc : String) : Except Err EState :=
  match findReq st i with
  | none => .error .notFound
  | some r =>
    if ¬ (r.state = .approved) then .error .invalidState
    else .ok (occClear { st with ledger := transitionReq st.ledger i .revoked (some rc) } r.ws)

/-- One engine operation, as named by §4 of the specification. -/
inductive Op
  | createSite (name : String) (nums : List Nat)
  | addWorkstations (name : String) (nums : List Nat)
  | removeWorkstations (name : String) (nums : List Nat)
  | renameSite (old newName : String)
  | deleteSite (name : String)
  | submit (w : WS) (borrower purpose : String) (win : Window)
  | approve (i : Nat) (rc : String)
  | reject (i : Nat) (rc : String)
  | ret (i : Nat)
  | revoke (i : Nat) (rc : String)
deriving DecidableEq

/-- Dispatch one operation against the engine state. -/
def applyOp (op : Op) (st : EState) : Except Err EState :=
  match op with
  | .createSite name nums => CreateSite st name nums
  | .addWorkstations name nums => AddWorkstations st name nums
  | .removeWorkstations name nums => RemoveWorkstations st name nums
  | .renameSite old newName => RenameSite st old newName
  | .deleteSite name => DeleteSite st name
  | .submit w b p win => Submit st w b p win
  | .approve i rc => Approve st i rc
  | .reject i rc => Reject st i rc
  | .ret i => ReturnReq st i
  | .revoke i rc => Revoke st i rc

/-- Run one operation; a failure leaves the state unchanged (§7: no
failure leaves the shared state partially updated). -/
def run1 (op : Op) (st : EState) : EState :=
  match applyOp op st with
  | .ok st' => st'
  | .error _ => st

/-- Run a sequence of operations from a state. -/
def runOps : List Op → EState → EState
  | [], st => st
  | op :: ops, st => runOps ops (run1 op st)

/-- A state is reachable when some operation sequence produces it from the
empty initial state. -/
def Reachable (st : EState) : Prop :=
  ∃ ops : List Op, runOps ops init = st

/-! ## Part 3: engine invariants

`Inv` collects the structural invariants that every engine operation
preserves: ledger ids are fresh and unique, every Occupancy Index entry
names an `Approved` ledger record of its workstation, index entries only
cover existing workstations, the index holds at most one entry per
workstation, and site names are unique.
-/

/-- The structural invariant of the engine state. -/
structure Inv (st : EState) : Prop where
  idsBelow : ∀ r ∈ st.ledger, r.id < st.nextId
  idsNodup : (st.ledger.map (fun r => r.id)).Nodup
  occApproved : ∀ e ∈ st.occ,
    ∃ r ∈ st.ledger, r.id = e.2 ∧ r.ws = e.1 ∧ r.state = RState.approved
  occExists : ∀ e ∈ st.occ, wsExists st e.1 = true
  occKeysNodup : (st.occ.map (fun e => e.1)).Nodup
  siteNamesNodup : (st.sites.map (fun s => s.name)).Nodup

theorem inv_init : Inv init := by
  constructor <;> simp [init]

/-- Two ledger records with the same id are equal (under `Inv`). -/
theorem ledger_id_inj {st : EState} (inv : Inv st) {a b : BorrowRequest}
    (ha : a ∈ st.ledger) (hb : b ∈ st.ledger) (h : a.id = b.id) : a = b :=
  List.inj_on_of_nodup_map inv.idsNodup ha hb h

theorem findReq_mem {st : EState} {i : Nat} {r : BorrowRequest}
    (h : findReq st i = some r) : r ∈ st.ledger :=
  List.mem_of_find?_eq_some h

theorem findReq_id {st : EState} {i : Nat} {r : BorrowRequest}
    (h : findReq st i = some r) : r.id = i := by
  have := List.find?_some h
  simpa using this

theorem findSite_name {st : EState} {x : String} {s : Site}
    (h : findSite st x = some s) : s.name = x := by
  have := List.find?_some h
  simpa using this

theorem findSite_mem {st : EState} {x : String} {s : Site}
    (h : findSite st x = some s) : s ∈ st.sites :=
  List.mem_of_find?_eq_some h

/-- A workstation whose pair occurs in the index is occupied. -/
theorem isOccupied_of_mem_occ {st : EState} {e : WS × Nat}
    (h : e ∈ st.occ) : IsOccupied st e.1 = true := by
  simp only [IsOccupied, occLookup, Option.isSome_map']
  rw [List.find?_isSome]
  exact ⟨e, h, by simp⟩

theorem transitionReq_map_id (l : List BorrowRequest) (i : Nat) (s : RState)
    (rc : Option String) :
    (transitionReq l i s rc).map (fun r => r.id) = l.map (fun r => r.id) := by
  simp only [transitionReq, List.map_map]
  apply List.map_congr_left
  intro r _
  by_cases hr : r.id = i <;> simp [hr]

theorem mem_transitionReq_of_ne {l : List BorrowRequest} {r : BorrowRequest}
    {i : Nat} {s : RState} {rc : Option String}
    (hr : r ∈ l) (hne : r.id ≠ i) : r ∈ transitionReq l i s rc := by
  rw [transitionReq, List.mem_map]
  exact ⟨r, hr, by simp [hne]⟩

/-- The filter partition identity used for the occupancy counts. -/
theorem length_filter_add_length_filter_not {α : Type} (l : List α) (p : α → Bool) :
    (l.filter p).length + (l.filter (fun a => !p a)).length = l.length := by
  induction l with
  | nil => simp
  | cons a l ih =>
    by_cases h : p a = true <;>
      simp only [List.filter_cons, h] <;> simp [h] <;> omega

theorem findSite_eq_none_of_not_isSome {st : EState} {name : String}
    (h : ¬(findSite st name).isSome = true) : findSite st name = none :=
  Option.not_isSome_iff_eq_none.mp h

theorem not_name_mem_of_findSite_none {st : EState} {name : String}
    (h : findSite st name = none) : ∀ s ∈ st.sites, s.name ≠ name := by
  intro s hs
  have := List.find?_eq_none.mp h s hs
  simpa using this

theorem inv_CreateSite {st st' : EState} {name : String} {nums : List Nat}
    (inv : Inv st) (h : CreateSite st name nums = .ok st') : Inv st' := by
  unfold CreateSite at h
  split_ifs at h with h1 h2 h3 h4
  have hnone : findSite st name = none := findSite_eq_none_of_not_isSome h1
  rw [Except.ok.injEq] at h
  subst h
  constructor
  · exact inv.idsBelow
  · exact inv.idsNodup
  · exact inv.occApproved
  · intro e he
    have hex := inv.occExists e he
    unfold wsExists at hex ⊢
    cases hfind : findSite st e.1.site with
    | none => rw [hfind] at hex; exact absurd hex (by simp)
    | some s =>
      rw [hfind] at hex
      have hne : ¬(name = e.1.site) := by
        intro hn
        rw [← hn, hnone] at hfind
        exact absurd hfind (by simp)
      have : findSite { st with sites := ⟨name, nums⟩ :: st.sites } e.1.site =
          some s := by
        have hstep : List.find? (fun s0 => decide (s0.name = e.1.site))
            (({ name := name, numbers := nums } : Site) :: st.sites) =
            List.find? (fun s0 => decide (s0.name = e.1.site)) st.sites :=
          List.find?_cons_of_neg _ (by simpa using hne)
        unfold findSite at hfind ⊢
        rw [hstep]
        exact hfind
      rw [this]
      exact hex
  · exact inv.occKeysNodup
  · have := inv.siteNamesNodup
    simp only [List.map_cons, List.nodup_cons]
    exact ⟨by
      intro hmem
      obtain ⟨s, hs, hsn⟩ := List.mem_map.mp hmem
      exact not_name_mem_of_findSite_none hnone s hs hsn, this⟩

theorem idsBelow_transitionReq {l : List BorrowRequest} {n i : Nat} {s : RState}
    {rc : Option String} (H : ∀ r ∈ l, r.id < n) :
    ∀ r ∈ transitionReq l i s rc, r.id < n := by
  intro r hr
  obtain ⟨r0, hr0, rfl⟩ := List.mem_map.mp hr
  have := H r0 hr0
  by_cases h : r0.id = i <;> simp [h] <;> omega

/-- Occupancy entries keep naming `Approved` records when the transition
target is a record that is not `Approved`. -/
theorem occApproved_transition_nonapproved {st : EState} (inv : Inv st)
    {i : Nat} {rt : BorrowRequest} {s : RState} {rc : Option String}
    (hreq : findReq st i = some rt) (hna : rt.state ≠ RState.approved) :
    ∀ e ∈ st.occ, ∃ r ∈ transitionReq st.ledger i s rc,
      r.id = e.2 ∧ r.ws = e.1 ∧ r.state = RState.approved := by
  intro e he
  obtain ⟨r, hr, hid, hws, happr⟩ := inv.occApproved e he
  have hne : r.id ≠ i := by
    intro hi
    have hreq' : r = rt :=
      ledger_id_inj inv hr (findReq_mem hreq) (by rw [hi, findReq_id hreq])
    rw [hreq'] at happr
    exact hna happr
  exact ⟨r, mem_transitionReq_of_ne hr hne, hid, hws, happr⟩

theorem keys_filter_nodup {l : List (WS × Nat)} {q : WS × Nat → Bool}
    (h : (l.map (fun e => e.1)).Nodup) :
    ((l.filter q).map (fun e => e.1)).Nodup :=
  ((List.filter_sublist l).map _).nodup h

theorem inv_Submit {st st' : EState} {w : WS} {b p : String} {win : Window}
    (inv : Inv st) (h : Submit st w b p win = .ok st') : Inv st' := by
  unfold Submit at h
  split_ifs at h with h1 h2 h3
  rw [Except.ok.injEq] at h
  subst h
  constructor
  · intro r hr
    simp only [List.mem_cons] at hr
    rcases hr with rfl | hr
    · simp
    · have := inv.idsBelow r hr
      simp only
      omega
  · simp only [List.map_cons, List.nodup_cons]
    refine ⟨?_, inv.idsNodup⟩
    intro hmem
    obtain ⟨r, hr, hid⟩ := List.mem_map.mp hmem
    have := inv.idsBelow r hr
    omega
  · intro e he
    obtain ⟨r, hr, hi, hwse, hst⟩ := inv.occApproved e he
    exact ⟨r, List.mem_cons_of_mem _ hr, hi, hwse, hst⟩
  · exact inv.occExists
  · exact inv.occKeysNodup
  · exact inv.siteNamesNodup

theorem inv_Reject {st st' : EState} {i : Nat} {rc : String}
    (inv : Inv st) (h : Reject st i rc = .ok st') : Inv st' := by
  unfold Reject at h
  cases hreq : findReq st i with
  | none => rw [hreq] at h; simp at h
  | some r =>
    simp only [hreq] at h
    split_ifs at h with h1
    rw [Except.ok.injEq] at h
    subst h
    constructor
    · show ∀ r0 ∈ transitionReq st.ledger i RState.rejected (some rc), r0.id < st.nextId
      exact idsBelow_transitionReq inv.idsBelow
    · show ((transitionReq st.ledger i RState.rejected (some rc)).map (fun r => r.id)).Nodup
      rw [transitionReq_map_id]
      exact inv.idsNodup
    · show ∀ e ∈ st.occ, ∃ r0 ∈ transitionReq st.ledger i RState.rejected (some rc),
        r0.id = e.2 ∧ r0.ws = e.1 ∧ r0.state = RState.approved
      exact occApproved_transition_nonapproved inv hreq (by rw [h1]; intro hc; cases hc)
    · exact inv.occExists
    · exact inv.occKeysNodup
    · exact inv.siteNamesNodup

/-- After clearing the transitioned request's workstation from the index,
the remaining entries still name `Approved` records. -/
theorem occApproved_occClear_transition {st : EState} (inv : Inv st)
    {i : Nat} {rt : BorrowRequest} {s : RState} {rc : Option String}
    (hreq : findReq st i = some rt) :
    ∀ e ∈ st.occ.filter (fun e => !decide (e.1 = rt.ws)),
      ∃ r ∈ transitionReq st.ledger i s rc,
        r.id = e.2 ∧ r.ws = e.1 ∧ r.state = RState.approved := by
  intro e he
  have hmem := (List.mem_filter.mp he).1
  have hkey : ¬(e.1 = rt.ws) := by
    have := (List.mem_filter.mp he).2
    simpa using this
  obtain ⟨r, hr, hid, hws, happr⟩ := inv.occApproved e hmem
  have hne : r.id ≠ i := by
    intro hi
    have hrrt : r = rt :=
      ledger_id_inj inv hr (findReq_mem hreq) (by rw [hi, findReq_id hreq])
    exact hkey (by rw [← hws, hrrt])
  exact ⟨r, mem_transitionReq_of_ne hr hne, hid, hws, happr⟩

theorem inv_ReturnReq {st st' : EState} {i : Nat}
    (inv : Inv st) (h : ReturnReq st i = .ok st') : Inv st' := by
  unfold ReturnReq at h
  cases hreq : findReq st i with
  | none => rw [hreq] at h; simp at h
  | some r =>
    simp only [hreq] at h
    split_ifs at h with h1
    rw [Except.ok.injEq] at h
    subst h
    constructor
    · show ∀ r0 ∈ transitionReq st.ledger i RState.returned none, r0.id < st.nextId
      exact idsBelow_transitionReq inv.idsBelow
    · show ((transitionReq st.ledger i RState.returned none).map (fun r => r.id)).Nodup
      rw [transitionReq_map_id]
      exact inv.idsNodup
    · show ∀ e ∈ st.occ.filter (fun e => !decide (e.1 = r.ws)),
        ∃ r0 ∈ transitionReq st.ledger i RState.returned none,
          r0.id = e.2 ∧ r0.ws = e.1 ∧ r0.state = RState.approved
      exact occApproved_occClear_transition inv hreq
    · intro e he
      exact inv.occExists e (List.mem_filter.mp he).1
    · exact keys_filter_nodup inv.occKeysNodup
    · exact inv.siteNamesNodup

theorem inv_Revoke {st st' : EState} {i : Nat} {rc : String}
    (inv : Inv st) (h : Revoke st i rc = .ok st') : Inv st' := by
  unfold Revoke at h
  cases hreq : findReq st i with
  | none => rw [hreq] at h; simp at h
  | some r =>
    simp only [hreq] at h
    split_ifs at h with h1
    rw [Except.ok.injEq] at h
    subst h
    constructor
    · show ∀ r0 ∈ transitionReq st.ledger i RState.revoked (some rc), r0.id < st.nextId
      exact idsBelow_transitionReq inv.idsBelow
    · show ((transitionReq st.ledger i RState.revoked (some rc)).map (fun r => r.id)).Nodup
      rw [transitionReq_map_id]
      exact inv.idsNodup
    · show ∀ e ∈ st.occ.filter (fun e => !decide (e.1 = r.ws)),
        ∃ r0 ∈ transitionReq st.ledger i RState.revoked (some rc),
          r0.id = e.2 ∧ r0.ws = e.1 ∧ r0.state = RState.approved
      exact occApproved_occClear_transition inv hreq
    · intro e he
      exact inv.occExists e (List.mem_filter.mp he).1
    · exact keys_filter_nodup inv.occKeysNodup
    · exact inv.siteNamesNodup

theorem inv_Approve {st st' : EState} {i : Nat} {rc : String}
    (inv : Inv st) (h : Approve st i rc = .ok st') : Inv st' := by
  unfold Approve at h
  cases hreq : findReq st i with
  | none => rw [hreq] at h; simp at h
  | some r =>
    simp only [hreq] at h
    split_ifs at h with h1 h2 h3
    rw [Except.ok.injEq] at h
    subst h
    have hrmem := findReq_mem hreq
    have hrid := findReq_id hreq
    constructor
    · show ∀ r0 ∈ transitionReq st.ledger i RState.approved (some rc), r0.id < st.nextId
      exact idsBelow_transitionReq inv.idsBelow
    · show ((transitionReq st.ledger i RState.approved (some rc)).map (fun r => r.id)).Nodup
      rw [transitionReq_map_id]
      exact inv.idsNodup
    · intro e he
      simp only [occSet, List.mem_cons] at he
      show ∃ r0 ∈ transitionReq st.ledger i RState.approved (some rc),
        r0.id = e.2 ∧ r0.ws = e.1 ∧ r0.state = RState.approved
      rcases he with rfl | he
      · have hmem : ({ r with state := RState.approved, review := some rc } :
            BorrowRequest) ∈ transitionReq st.ledger i RState.approved (some rc) := by
          rw [transitionReq, List.mem_map]
          exact ⟨r, hrmem, by simp [hrid]⟩
        exact ⟨_, hmem, by simpa using hrid, rfl, rfl⟩
      · exact occApproved_occClear_transition inv hreq e he
    · intro e he
      simp only [occSet, List.mem_cons] at he
      rcases he with rfl | he
      · exact h2
      · exact inv.occExists e (List.mem_filter.mp he).1
    · show (((r.ws, i) ::
        st.occ.filter (fun e => !decide (e.1 = r.ws))).map (fun e => e.1)).Nodup
      simp only [List.map_cons, List.nodup_cons]
      refine ⟨?_, keys_filter_nodup inv.occKeysNodup⟩
      intro hmem
      obtain ⟨e, he, heq⟩ := List.mem_map.mp hmem
      have := (List.mem_filter.mp he).2
      rw [heq] at this
      simp at this
    · exact inv.siteNamesNodup

theorem find?_congr_mem {α : Type} {p q : α → Bool} :
    ∀ {l : List α}, (∀ a ∈ l, p a = q a) → l.find? p = l.find? q := by
  intro l
  induction l with
  | nil => intro _; rfl
  | cons a l ih =>
    intro H
    have ha := H a (List.mem_cons_self a l)
    by_cases h : p a = true
    · rw [List.find?_cons_of_pos _ h, List.find?_cons_of_pos _ (ha ▸ h)]
    · rw [List.find?_cons_of_neg _ h, List.find?_cons_of_neg _ (ha ▸ h),
        ih (fun b hb => H b (List.mem_cons_of_mem a hb))]

theorem find?_filter_of_imp {α : Type} {p q : α → Bool} :
    ∀ (l : List α), (∀ a, p a = true → q a = true) →
      (l.filter q).find? p = l.find? p := by
  intro l h
  induction l with
  | nil => rfl
  | cons a l ih =>
    rw [List.filter_cons]
    by_cases hq : q a = true
    · rw [if_pos hq]
      by_cases hp : p a = true
      · rw [List.find?_cons_of_pos _ hp, List.find?_cons_of_pos _ hp]
      · rw [List.find?_cons_of_neg _ hp, List.find?_cons_of_neg _ hp]
        exact ih
    · rw [if_neg hq]
      have hp : ¬p a = true := fun hpa => hq (h a hpa)
      rw [List.find?_cons_of_neg _ hp]
      exact ih

theorem findSite_updateSite {st : EState} {name : String} {f : Site → Site}
    (hf : ∀ s, (f s).name = s.name) (x : String) :
    findSite (updateSite st name f) x =
      (findSite st x).map (fun s => if s.name = name then f s else s) := by
  unfold findSite updateSite
  rw [List.find?_map]
  have hpg : ((fun s : Site => decide (s.name = x)) ∘
      fun s => if s.name = name then f s else s) = (fun s : Site => decide (s.name = x)) := by
    funext s
    by_cases h : s.name = name <;> simp [h, hf]
  rw [hpg]

theorem wsExists_updateSite_mono {st : EState} {name : String} {f : Site → Site}
    (hf : ∀ s, (f s).name = s.name)
    (hsub : ∀ s n, s.numbers.contains n = true → (f s).numbers.contains n = true)
    {w : WS} (h : wsExists st w = true) : wsExists (updateSite st name f) w = true := by
  unfold wsExists at h ⊢
  rw [findSite_updateSite hf]
  cases hfind : findSite st w.site with
  | none => rw [hfind] at h; exact absurd h (by simp)
  | some s =>
    rw [hfind] at h
    simp only [Option.map_some']
    by_cases hn : s.name = name
    · rw [if_pos hn]
      exact hsub s _ h
    · rw [if_neg hn]
      exact h

theorem siteNames_updateSite {st : EState} {name : String} {f : Site → Site}
    (hf : ∀ s, (f s).name = s.name) :
    (updateSite st name f).sites.map (fun s => s.name) =
      st.sites.map (fun s => s.name) := by
  unfold updateSite
  rw [List.map_map]
  apply List.map_congr_left
  intro s _
  by_cases h : s.name = name <;> simp [h, hf]

theorem inv_AddWorkstations {st st' : EState} {name : String} {nums : List Nat}
    (inv : Inv st) (h : AddWorkstations st name nums = .ok st') : Inv st' := by
  unfold AddWorkstations at h
  cases hfind : findSite st name with
  | none => rw [hfind] at h; simp at h
  | some s =>
    simp only [hfind] at h
    split_ifs at h with h1 h2 h3 h4
    rw [Except.ok.injEq] at h
    subst h
    constructor
    · exact inv.idsBelow
    · exact inv.idsNodup
    · exact inv.occApproved
    · intro e he
      refine @wsExists_updateSite_mono st name
        (fun s0 => { s0 with numbers := s0.numbers ++ nums })
        (fun s0 => rfl) ?_ e.1 (inv.occExists e he)
      intro s0 n hc
      have : n ∈ s0.numbers := by simpa using hc
      simp only [List.elem_eq_mem, List.mem_append, decide_eq_true_eq]
      exact Or.inl this
    · exact inv.occKeysNodup
    · show ((updateSite st name
        (fun s0 => { s0 with numbers := s0.numbers ++ nums })).sites.map
          (fun s0 => s0.name)).Nodup
      rw [@siteNames_updateSite st name
        (fun s0 => { s0 with numbers := s0.numbers ++ nums }) (fun s0 => rfl)]
      exact inv.siteNamesNodup

theorem inv_RemoveWorkstations {st st' : EState} {name : String} {nums : List Nat}
    (inv : Inv st) (h : RemoveWorkstations st name nums = .ok st') : Inv st' := by
  unfold RemoveWorkstations at h
  cases hfind : findSite st name with
  | none => rw [hfind] at h; simp at h
  | some s =>
    simp only [hfind] at h
    split_ifs at h with h1 h2
    rw [Except.ok.injEq] at h
    subst h
    have h2' : nums.any (fun n => IsOccupied st ⟨name, n⟩) = false :=
      Bool.eq_false_iff.mpr h2
    constructor
    · exact inv.idsBelow
    · exact inv.idsNodup
    · exact inv.occApproved
    · intro e he
      have hex := inv.occExists e he
      unfold wsExists at hex ⊢
      rw [@findSite_updateSite st name
        (fun s0 => { s0 with numbers := s0.numbers.filter (fun n => !nums.contains n) })
        (fun s0 => rfl) e.1.site]
      cases hfind2 : findSite st e.1.site with
      | none => rw [hfind2] at hex; exact absurd hex (by simp)
      | some s2 =>
        rw [hfind2] at hex
        simp only [Option.map_some']
        by_cases hn : s2.name = name
        · rw [if_pos hn]
          have hsite : e.1.site = name := by rw [← findSite_name hfind2, hn]
          have hocc_e : IsOccupied st e.1 = true := isOccupied_of_mem_occ he
          have hmem : e.1.number ∈ s2.numbers := by simpa using hex
          have hnin : e.1.number ∉ nums := by
            intro hin
            have hoccf := List.any_eq_false.mp h2' e.1.number hin
            rw [← hsite] at hoccf
            have hf2 : IsOccupied st e.1 = false := by simpa using hoccf
            rw [hocc_e] at hf2
            cases hf2
          show ((s2.numbers.filter (fun n => !nums.contains n)).contains e.1.number) = true
          simp only [List.elem_eq_mem, decide_eq_true_eq, List.mem_filter]
          exact ⟨hmem, by simpa using hnin⟩
        · rw [if_neg hn]
          exact hex
    · exact inv.occKeysNodup
    · show ((updateSite st name
        (fun s0 => { s0 with numbers := s0.numbers.filter (fun n => !nums.contains n) })).sites.map
          (fun s0 => s0.name)).Nodup
      rw [@siteNames_updateSite st name
        (fun s0 => { s0 with numbers := s0.numbers.filter (fun n => !nums.contains n) })
        (fun s0 => rfl)]
      exact inv.siteNamesNodup

theorem findSite_delete_ne {st : EState} {name x : String} (hx : ¬(x = name)) :
    findSite { st with sites := st.sites.filter (fun s => !decide (s.name = name)) } x =
      findSite st x := by
  unfold findSite
  apply find?_filter_of_imp
  intro s hs
  simp only [decide_eq_true_eq] at hs
  simp only [Bool.not_eq_true', decide_eq_false_iff_not]
  rw [hs]
  exact hx

theorem inv_DeleteSite {st st' : EState} {name : String}
    (inv : Inv st) (h : DeleteSite st name = .ok st') : Inv st' := by
  unfold DeleteSite at h
  cases hfind : findSite st name with
  | none => rw [hfind] at h; simp at h
  | some s =>
    simp only [hfind] at h
    split_ifs at h with h1
    rw [Except.ok.injEq] at h
    subst h
    have h1' : OccupiedCount st name = 0 := not_ne_iff.mp h1
    have hfree : ∀ n ∈ s.numbers, IsOccupied st ⟨name, n⟩ = false := by
      unfold OccupiedCount at h1'
      simp only [hfind] at h1'
      have hnil := List.length_eq_zero.mp h1'
      intro n hn
      by_contra hocc
      have hmemf : n ∈ s.numbers.filter (fun n => IsOccupied st ⟨name, n⟩) :=
        List.mem_filter.mpr ⟨hn, by simpa using hocc⟩
      rw [hnil] at hmemf
      cases hmemf
    constructor
    · exact inv.idsBelow
    · exact inv.idsNodup
    · exact inv.occApproved
    · intro e he
      have hex := inv.occExists e he
      have hne : ¬(e.1.site = name) := by
        intro hsite
        unfold wsExists at hex
        rw [hsite, hfind] at hex
        have hmem : e.1.number ∈ s.numbers := by simpa using hex
        have hocc_e := isOccupied_of_mem_occ (show e ∈ st.occ from he)
        have hf := hfree e.1.number hmem
        rw [← hsite] at hf
        have hf2 : IsOccupied st e.1 = false := hf
        rw [hocc_e] at hf2
        cases hf2
      unfold wsExists at hex ⊢
      rw [findSite_delete_ne hne]
      exact hex
    · exact inv.occKeysNodup
    · exact ((List.filter_sublist _).map _).nodup inv.siteNamesNodup

theorem findSite_mk (sl : List Site) (ll : List BorrowRequest)
    (ol : List (WS × Nat)) (n : Nat) (x : String) :
    findSite ⟨sl, ll, ol, n⟩ x = sl.find? (fun s => decide (s.name = x)) := rfl

theorem wsExists_mk (sl : List Site) (ll : List BorrowRequest)
    (ol : List (WS × Nat)) (n : Nat) (w : WS) :
    wsExists ⟨sl, ll, ol, n⟩ w =
      match sl.find? (fun s => decide (s.name = w.site)) with
      | some s => s.numbers.contains w.number
      | none => false := rfl

theorem findSite_rename_new {st : EState} {old newName : String} {s0 : Site}
    (hnew : findSite st newName = none) (hold : findSite st old = some s0) :
    (st.sites.map (fun s => if s.name = old then { s with name := newName } else s)).find?
        (fun s => decide (s.name = newName)) = some { s0 with name := newName } := by
  rw [List.find?_map]
  have hcongr : st.sites.find? ((fun s : Site => decide (s.name = newName)) ∘
      (fun s => if s.name = old then { s with name := newName } else s)) =
      st.sites.find? (fun s => decide (s.name = old)) := by
    apply find?_congr_mem
    intro a ha
    simp only [Function.comp_apply]
    by_cases hao : a.name = old
    · simp [hao]
    · have hne : ¬(a.name = newName) := not_name_mem_of_findSite_none hnew a ha
      simp [hao, hne]
  rw [hcongr]
  unfold findSite at hold
  rw [hold]
  have hs0 : s0.name = old := by
    have := List.find?_some hold
    simpa using this
  simp [hs0]

theorem findSite_rename_other {st : EState} {old newName x : String}
    (hx_old : ¬(x = old)) (hx_new : ¬(x = newName)) :
    (st.sites.map (fun s => if s.name = old then { s with name := newName } else s)).find?
        (fun s => decide (s.name = x)) =
      st.sites.find? (fun s => decide (s.name = x)) := by
  rw [List.find?_map]
  have hcongr : st.sites.find? ((fun s : Site => decide (s.name = x)) ∘
      (fun s => if s.name = old then { s with name := newName } else s)) =
      st.sites.find? (fun s => decide (s.name = x)) := by
    apply find?_congr_mem
    intro a ha
    simp only [Function.comp_apply]
    by_cases hao : a.name = old
    · have h1 : ¬(newName = x) := fun hc => hx_new hc.symm
      have h2 : ¬(a.name = x) := fun hc => hx_old (by rw [← hc, hao])
      have h3 : ¬(old = x) := fun hc => hx_old hc.symm
      simp [hao, h1, h2, h3]
    · simp [hao]
  rw [hcongr]
  cases hfx : st.sites.find? (fun s => decide (s.name = x)) with
  | none => simp
  | some s =>
    have hsx : s.name = x := by
      have := List.find?_some hfx
      simpa using this
    simp only [Option.map_some']
    rw [if_neg (by rw [hsx]; exact hx_old)]

theorem inv_RenameSite {st st' : EState} {old newName : String}
    (inv : Inv st) (h : RenameSite st old newName = .ok st') : Inv st' := by
  unfold RenameSite at h
  split_ifs at h with h1
  cases hfind : findSite st old with
  | none => rw [hfind] at h; simp at h
  | some s0 =>
    simp only [hfind] at h
    rw [Except.ok.injEq] at h
    subst h
    have hnew : findSite st newName = none := findSite_eq_none_of_not_isSome h1
    have hs0name : s0.name = old := findSite_name hfind
    have hnew_notmem : ∀ s ∈ st.sites, s.name ≠ newName :=
      not_name_mem_of_findSite_none hnew
    constructor
    · intro r hr
      obtain ⟨r0, hr0, rfl⟩ := List.mem_map.mp hr
      exact inv.idsBelow r0 hr0
    · show ((st.ledger.map (fun r => { r with ws := renameWS old newName r.ws })).map
        (fun r => r.id)).Nodup
      rw [List.map_map]
      exact inv.idsNodup
    · intro e' he'
      obtain ⟨e, he, rfl⟩ := List.mem_map.mp he'
      obtain ⟨r, hr, hid, hws, hst⟩ := inv.occApproved e he
      refine ⟨{ r with ws := renameWS old newName r.ws }, ?_, hid, ?_, hst⟩
      · exact List.mem_map.mpr ⟨r, hr, rfl⟩
      · show renameWS old newName r.ws = renameWS old newName e.1
        rw [hws]
    · intro e' he'
      obtain ⟨e, he, rfl⟩ := List.mem_map.mp he'
      have hex := inv.occExists e he
      unfold wsExists at hex
      have hx_new : ¬(e.1.site = newName) := by
        intro hc
        rw [hc, hnew] at hex
        exact absurd hex (by simp)
      rw [wsExists_mk]
      by_cases hcase : e.1.site = old
      · have hrw : renameWS old newName e.1 = ⟨newName, e.1.number⟩ := by
          simp [renameWS, hcase]
        rw [hrw]
        show (match (st.sites.map
            (fun s => if s.name = old then { s with name := newName } else s)).find?
              (fun s => decide (s.name = newName)) with
          | some s => s.numbers.contains e.1.number
          | none => false) = true
        rw [findSite_rename_new hnew hfind]
        rw [hcase, hfind] at hex
        exact hex
      · have hrw : renameWS old newName e.1 = e.1 := by
          simp [renameWS, hcase]
        rw [hrw]
        show (match (st.sites.map
            (fun s => if s.name = old then { s with name := newName } else s)).find?
              (fun s => decide (s.name = e.1.site)) with
          | some s => s.numbers.contains e.1.number
          | none => false) = true
        rw [findSite_rename_other hcase hx_new]
        exact hex
    · show ((st.occ.map (fun e => (renameWS old newName e.1, e.2))).map
        (fun e => e.1)).Nodup
      rw [List.map_map]
      show (st.occ.map (fun e => renameWS old newName e.1)).Nodup
      rw [show (fun e : WS × Nat => renameWS old newName e.1) =
        ((fun w => renameWS old newName w) ∘ (fun e : WS × Nat => e.1)) from rfl]
      rw [← List.map_map]
      apply List.Nodup.map_on ?_ inv.occKeysNodup
      intro x hx y hy hxy
      obtain ⟨ex, hex, hx1⟩ := List.mem_map.mp hx
      obtain ⟨ey, hey, hy1⟩ := List.mem_map.mp hy
      have hxe : wsExists st x = true := hx1 ▸ inv.occExists ex hex
      have hye : wsExists st y = true := hy1 ▸ inv.occExists ey hey
      have hxn : ¬(x.site = newName) := by
        intro hc
        unfold wsExists at hxe
        rw [hc, hnew] at hxe
        exact absurd hxe (by simp)
      have hyn : ¬(y.site = newName) := by
        intro hc
        unfold wsExists at hye
        rw [hc, hnew] at hye
        exact absurd hye (by simp)
      unfold renameWS at hxy
      cases x with
      | mk xs xn =>
        cases y with
        | mk ys yn =>
          simp only at hxy hxn hyn
          by_cases hx0 : xs = old <;> by_cases hy0 : ys = old
          · rw [if_pos (by simpa using hx0), if_pos (by simpa using hy0)] at hxy
            simp only [WS.mk.injEq] at hxy ⊢
            exact ⟨hx0.trans hy0.symm, hxy.2⟩
          · rw [if_pos (by simpa using hx0), if_neg (by simpa using hy0)] at hxy
            simp only [WS.mk.injEq] at hxy
            exact absurd hxy.1.symm hyn
          · rw [if_neg (by simpa using hx0), if_pos (by simpa using hy0)] at hxy
            simp only [WS.mk.injEq] at hxy
            exact absurd hxy.1 hxn
          · rw [if_neg (by simpa using hx0), if_neg (by simpa using hy0)] at hxy
            exact hxy
    · show ((st.sites.map
        (fun s => if s.name = old then { s with name := newName } else s)).map
          (fun s => s.name)).Nodup
      rw [List.map_map]
      have hfun : ((fun s : Site => s.name) ∘
          (fun s => if s.name = old then { s with name := newName } else s)) =
          ((fun x => if x = old then newName else x) ∘ (fun s : Site => s.name)) := by
        funext s
        by_cases hso : s.name = old <;> simp [hso]
      rw [hfun, ← List.map_map]
      apply List.Nodup.map_on ?_ inv.siteNamesNodup
      intro x hx y hy hxy
      obtain ⟨sx, hsx, hx1⟩ := List.mem_map.mp hx
      obtain ⟨sy, hsy, hy1⟩ := List.mem_map.mp hy
      have hxn : ¬(x = newName) := by
        intro hc
        exact hnew_notmem sx hsx (hx1.trans hc)
      have hyn : ¬(y = newName) := by
        intro hc
        exact hnew_notmem sy hsy (hy1.trans hc)
      by_cases hx0 : x = old <;> by_cases hy0 : y = old
      · exact hx0.trans hy0.symm
      · rw [if_pos hx0, if_neg hy0] at hxy
        exact absurd hxy.symm hyn
      · rw [if_neg hx0, if_pos hy0] at hxy
        exact absurd hxy hxn
      · rw [if_neg hx0, if_neg hy0] at hxy
        exact hxy

theorem inv_applyOp {op : Op} {st st' : EState}
    (inv : Inv st) (h : applyOp op st = .ok st') : Inv st' := by
  cases op with
  | createSite name nums => exact inv_CreateSite inv h
  | addWorkstations name nums => exact inv_AddWorkstations inv h
  | removeWorkstations name nums => exact inv_RemoveWorkstations inv h
  | renameSite old newName => exact inv_RenameSite inv h
  | deleteSite name => exact inv_DeleteSite inv h
  | submit w b p win => exact inv_Submit inv h
  | approve i rc => exact inv_Approve inv h
  | reject i rc => exact inv_Reject inv h
  | ret i => exact inv_ReturnReq inv h
  | revoke i rc => exact inv_Revoke inv h

theorem inv_run1 (op : Op) {st : EState} (inv : Inv st) : Inv (run1 op st) := by
  unfold run1
  cases happ : applyOp op st with
  | ok st' => exact inv_applyOp inv happ
  | error e => exact inv

theorem inv_runOps (ops : List Op) {st : EState} (inv : Inv st) :
    Inv (runOps ops st) := by
  induction ops generalizing st with
  | nil => exact inv
  | cons op ops ih => exact ih (inv_run1 op inv)

/-- Every reachable engine state satisfies the structural invariant. -/
theorem inv_reachable {st : EState} (h : Reachable st) : Inv st := by
  obtain ⟨ops, hops⟩ := h
  rw [← hops]
  exact inv_runOps ops inv_init

/-- A terminal record is untouched by a transition whose target is
non-terminal. -/
theorem terminal_mem_transitionReq {st : EState} (inv : Inv st)
    {i : Nat} {rt : BorrowRequest} {s : RState} {rc : Option String}
    (hreq : findReq st i = some rt) (hrt : rt.state.isTerminal = false)
    {r : BorrowRequest} (hr : r ∈ st.ledger) (hterm : r.state.isTerminal = true) :
    r ∈ transitionReq st.ledger i s rc := by
  apply mem_transitionReq_of_ne hr
  intro hi
  have hrrt : r = rt :=
    ledger_id_inj inv hr (findReq_mem hreq) (by rw [hi, findReq_id hreq])
  rw [hrrt] at hterm
  rw [hterm] at hrt
  cases hrt

/-- Any single successful operation keeps each terminal ledger record's
state (matched by id) intact. -/
theorem terminal_preserved_applyOp {op : Op} {st st' : EState}
    (inv : Inv st) (h : applyOp op st = .ok st') :
    ∀ r ∈ st.ledger, r.state.isTerminal = true →
      ∃ r' ∈ st'.ledger, r'.id = r.id ∧ r'.state = r.state := by
  cases op with
  | createSite name nums =>
    replace h : CreateSite st name nums = Except.ok st' := h
    unfold CreateSite at h
    split_ifs at h
    rw [Except.ok.injEq] at h
    subst h
    exact fun r hr ht => ⟨r, hr, rfl, rfl⟩
  | addWorkstations name nums =>
    replace h : AddWorkstations st name nums = Except.ok st' := h
    unfold AddWorkstations at h
    cases hfind : findSite st name with
    | none => rw [hfind] at h; simp at h
    | some s =>
      simp only [hfind] at h
      split_ifs at h
      rw [Except.ok.injEq] at h
      subst h
      exact fun r hr ht => ⟨r, hr, rfl, rfl⟩
  | removeWorkstations name nums =>
    replace h : RemoveWorkstations st name nums = Except.ok st' := h
    unfold RemoveWorkstations at h
    cases hfind : findSite st name with
    | none => rw [hfind] at h; simp at h
    | some s =>
      simp only [hfind] at h
      split_ifs at h
      rw [Except.ok.injEq] at h
      subst h
      exact fun r hr ht => ⟨r, hr, rfl, rfl⟩
  | renameSite old newName =>
    replace h : RenameSite st old newName = Except.ok st' := h
    unfold RenameSite at h
    split_ifs at h with h1
    cases hfind : findSite st old with
    | none => rw [hfind] at h; simp at h
    | some s0 =>
      simp only [hfind] at h
      rw [Except.ok.injEq] at h
      subst h
      intro r hr ht
      exact ⟨{ r with ws := renameWS old newName r.ws },
        List.mem_map.mpr ⟨r, hr, rfl⟩, rfl, rfl⟩
  | deleteSite name =>
    replace h : DeleteSite st name = Except.ok st' := h
    unfold DeleteSite at h
    cases hfind : findSite st name with
    | none => rw [hfind] at h; simp at h
    | some s =>
      simp only [hfind] at h
      split_ifs at h
      rw [Except.ok.injEq] at h
      subst h
      exact fun r hr ht => ⟨r, hr, rfl, rfl⟩
  | submit w b p win =>
    replace h : Submit st w b p win = Except.ok st' := h
    unfold Submit at h
    split_ifs at h
    rw [Except.ok.injEq] at h
    subst h
    exact fun r hr ht => ⟨r, List.mem_cons_of_mem _ hr, rfl, rfl⟩
  | approve i rc =>
    replace h : Approve st i rc = Except.ok st' := h
    unfold Approve at h
    cases hreq : findReq st i with
    | none => rw [hreq] at h; simp at h
    | some rt =>
      simp only [hreq] at h
      split_ifs at h with h1 h2 h3
      rw [Except.ok.injEq] at h
      subst h
      intro r hr ht
      refine ⟨r, ?_, rfl, rfl⟩
      show r ∈ transitionReq st.ledger i RState.approved (some rc)
      exact terminal_mem_transitionReq inv hreq (by rw [h1]; rfl) hr ht
  | reject i rc =>
    replace h : Reject st i rc = Except.ok st' := h
    unfold Reject at h
    cases hreq : findReq st i with
    | none => rw [hreq] at h; simp at h
    | some rt =>
      simp only [hreq] at h
      split_ifs at h with h1
      rw [Except.ok.injEq] at h
      subst h
      intro r hr ht
      refine ⟨r, ?_, rfl, rfl⟩
      show r ∈ transitionReq st.ledger i RState.rejected (some rc)
      exact terminal_mem_transitionReq inv hreq (by rw [h1]; rfl) hr ht
  | ret i =>
    replace h : ReturnReq st i = Except.ok st' := h
    unfold ReturnReq at h
    cases hreq : findReq st i with
    | none => rw [hreq] at h; simp at h
    | some rt =>
      simp only [hreq] at h
      split_ifs at h with h1
      rw [Except.ok.injEq] at h
      subst h
      intro r hr ht
      refine ⟨r, ?_, rfl, rfl⟩
      show r ∈ transitionReq st.ledger i RState.returned none
      exact terminal_mem_transitionReq inv hreq (by rw [h1]; rfl) hr ht
  | revoke i rc =>
    replace h : Revoke st i rc = Except.ok st' := h
    unfold Revoke at h
    cases hreq : findReq st i with
    | none => rw [hreq] at h; simp at h
    | some rt =>
      simp only [hreq] at h
      split_ifs at h with h1
      rw [Except.ok.injEq] at h
      subst h
      intro r hr ht
      refine ⟨r, ?_, rfl, rfl⟩
      show r ∈ transitionReq st.ledger i RState.revoked (some rc)
      exact terminal_mem_transitionReq inv hreq (by rw [h1]; rfl) hr ht

theorem terminal_preserved_run1 (op : Op) {st : EState} (inv : Inv st) :
    ∀ r ∈ st.ledger, r.state.isTerminal = true →
      ∃ r' ∈ (run1 op st).ledger, r'.id = r.id ∧ r'.state = r.state := by
  unfold run1
  cases happ : applyOp op st with
  | ok st' => exact terminal_preserved_applyOp inv happ
  | error e => exact fun r hr ht => ⟨r, hr, rfl, rfl⟩

/-- No sequence of engine operations moves a record out of a terminal
state: the record with the same id is still in the Ledger with the same
state afterwards. -/
theorem terminal_preserved_runOps (ops : List Op) {st : EState} (inv : Inv st) :
    ∀ r ∈ st.ledger, r.state.isTerminal = true →
      ∃ r' ∈ (runOps ops st).ledger, r'.id = r.id ∧ r'.state = r.state := by
  induction ops generalizing st with
  | nil => exact fun r hr ht => ⟨r, hr, rfl, rfl⟩
  | cons op ops ih =>
    intro r hr ht
    obtain ⟨r1, hr1, hid1, hst1⟩ := terminal_preserved_run1 op inv r hr ht
    obtain ⟨r2, hr2, hid2, hst2⟩ :=
      ih (inv_run1 op inv) r1 hr1 (by rw [hst1]; exact ht)
    exact ⟨r2, hr2, hid2.trans hid1, hst2.trans hst1⟩

/-! ## Part 4: claim theorems -/

theorem isActive_iff (s : RState) :
    s.isActive = true ↔ (s = RState.pending ∨ s = RState.approved) := by
  cases s <;> simp [RState.isActive]

theorem overlaps_iff (a b : Window) :
    overlaps a b = true ↔ (a.start < b.stop ∧ b.start < a.stop) := by
  simp [overlaps]

theorem occLookup_none_of_not_wsExists {st : EState} (inv : Inv st) {w : WS}
    (h : wsExists st w = false) : occLookup st w = none := by
  unfold occLookup
  cases hfe : st.occ.find? (fun e => decide (e.1 = w)) with
  | none => simp
  | some e =>
    have he := List.mem_of_find?_eq_some hfe
    have hew : e.1 = w := by
      have := List.find?_some hfe
      simpa using this
    have := inv.occExists e he
    rw [hew, h] at this
    cases this

theorem length_filter_key_le_one {l : List (WS × Nat)}
    (h : (l.map (fun e => e.1)).Nodup) (w : WS) :
    (l.filter (fun e => decide (e.1 = w))).length ≤ 1 := by
  induction l with
  | nil => simp
  | cons a l ih =>
    simp only [List.map_cons, List.nodup_cons] at h
    rw [List.filter_cons]
    by_cases ha : a.1 = w
    · rw [if_pos (by simp [ha])]
      have hnil : l.filter (fun e => decide (e.1 = w)) = [] := by
        rw [List.filter_eq_nil_iff]
        intro e he
        simp only [decide_eq_true_eq]
        intro hew
        exact h.1 (List.mem_map.mpr ⟨e, he, (hew.trans ha.symm)⟩)
      rw [hnil]
      simp
    · rw [if_neg (by simp [ha])]
      exact ih h.2

theorem map_updateSite_id {sites : List Site} {name : String} {f : Site → Site}
    (h : ∀ s ∈ sites, s.name ≠ name) :
    sites.map (fun s => if s.name = name then f s else s) = sites :=
  (List.map_congr_left fun s hs => if_neg (h s hs)).trans (List.map_id' sites)

/-- C2: for every engine state and site, the occupied and available counts
partition the site's workstations, so
`OccupiedCount + AvailableCount = TotalCount`. -/
theorem C2_counts (st : EState) (name : String) :
    OccupiedCount st name + AvailableCount st name = TotalCount st name := by
  unfold OccupiedCount AvailableCount TotalCount
  cases hfind : findSite st name with
  | none => simp
  | some s =>
    simp only [hfind]
    exact length_filter_add_length_filter_not s.numbers _

/-- C3: with a nonzero occupied count, `DeleteSite` fails with
`ResourceBusy` and changes nothing, and `RemoveWorkstations` of a
workstation set containing an occupied workstation fails with
`ResourceBusy` and changes nothing. -/
theorem C3_busy (st : EState) (name : String) :
    (OccupiedCount st name ≠ 0 → DeleteSite st name = .error .resourceBusy) ∧
    (OccupiedCount st name ≠ 0 → run1 (.deleteSite name) st = st) ∧
    (∀ nums s, findSite st name = some s →
      nums.all (fun n => s.numbers.contains n) = true →
      (∃ n ∈ nums, IsOccupied st ⟨name, n⟩ = true) →
      RemoveWorkstations st name nums = .error .resourceBusy ∧
      run1 (.removeWorkstations name nums) st = st) := by
  have hdel : OccupiedCount st name ≠ 0 → DeleteSite st name = .error .resourceBusy := by
    intro hc
    unfold DeleteSite
    cases hfind : findSite st name with
    | none =>
      exfalso
      apply hc
      unfold OccupiedCount
      rw [hfind]
    | some s =>
      simp only [hfind]
      rw [if_pos hc]
  have hrem : ∀ nums s, findSite st name = some s →
      nums.all (fun n => s.numbers.contains n) = true →
      (∃ n ∈ nums, IsOccupied st ⟨name, n⟩ = true) →
      RemoveWorkstations st name nums = .error .resourceBusy := by
    intro nums s hfind hall hocc
    unfold RemoveWorkstations
    simp only [hfind]
    rw [if_neg (fun hc => hc hall)]
    rw [if_pos (List.any_eq_true.mpr (by
      obtain ⟨n, hn, ho⟩ := hocc
      exact ⟨n, hn, ho⟩))]
  refine ⟨hdel, ?_, ?_⟩
  · intro hc
    show (match DeleteSite st name with
      | Except.ok st' => st'
      | Except.error _ => st) = st
    rw [hdel hc]
  · intro nums s hfind hall hocc
    refine ⟨hrem nums s hfind hall hocc, ?_⟩
    show (match RemoveWorkstations st name nums with
      | Except.ok st' => st'
      | Except.error _ => st) = st
    rw [hrem nums s hfind hall hocc]

/-- C7: `CreateSite` fails with `Conflict` on an existing name, with
`InvalidArgument` on an empty or duplicated number list, and on success
registers the site with exactly the given workstation numbers. -/
theorem C7_createSite (st : EState) (name : String) (nums : List Nat) :
    ((findSite st name).isSome → CreateSite st name nums = .error .conflict) ∧
    (findSite st name = none → (nums = [] ∨ ¬nums.Nodup) →
      CreateSite st name nums = .error .invalidArgument) ∧
    (findSite st name = none → nums ≠ [] → nums.Nodup →
      nums.all (fun n => decide (0 < n)) = true →
      ∃ st', CreateSite st name nums = .ok st' ∧
        ∃ s, findSite st' name = some s ∧ s.numbers = nums) := by
  refine ⟨?_, ?_, ?_⟩
  · intro h
    unfold CreateSite
    rw [if_pos h]
  · intro hnone hbad
    unfold CreateSite
    rw [if_neg (by simp [hnone])]
    rcases hbad with rfl | hdup
    · rfl
    · by_cases hemp : nums.isEmpty = true
      · rw [if_pos hemp]
      · rw [if_neg hemp, if_pos hdup]
  · intro hnone hne hdup hpos
    unfold CreateSite
    rw [if_neg (by simp [hnone]), if_neg (by simpa using hne),
      if_neg (not_not_intro hdup), if_neg (fun hc => hc hpos)]
    refine ⟨_, rfl, ⟨name, nums⟩, ?_, rfl⟩
    rw [findSite_mk]
    exact List.find?_cons_of_pos _ (by simp)

/-- Witness for C7 at a concrete input: creating `Lab-A` with numbers
`[1, 2]` in the empty state succeeds and registers exactly that set. -/
theorem C7_createSite_witness :
    ∃ st', CreateSite init "Lab-A" [1, 2] = .ok st' ∧
      ∃ s, findSite init "Lab-A" = none ∧ findSite st' "Lab-A" = some s ∧
        s.numbers = [1, 2] := by
  obtain ⟨st', hok, s, hfind, hnums⟩ :=
    (C7_createSite init "Lab-A" [1, 2]).2.2 rfl (by decide) (by decide) (by decide)
  exact ⟨st', hok, s, rfl, hfind, hnums⟩

/-- C4: given an existing workstation and a well-formed window, `Submit`
fails with `WindowConflict` exactly when the window overlaps an existing
`Pending` or `Approved` request on the same workstation (overlap test
`existing.start < new.end && new.start < existing.end`); otherwise it
succeeds and prepends a `Pending` record. -/
theorem C4_submit (st : EState) (w : WS) (b p : String) (win : Window)
    (hex : wsExists st w = true) (hlt : win.start < win.stop) :
    (Submit st w b p win = .error .windowConflict ↔
      ∃ r ∈ st.ledger, r.ws = w ∧
        (r.state = RState.pending ∨ r.state = RState.approved) ∧
        r.window.start < win.stop ∧ win.start < r.window.stop) ∧
    (¬(∃ r ∈ st.ledger, r.ws = w ∧
        (r.state = RState.pending ∨ r.state = RState.approved) ∧
        r.window.start < win.stop ∧ win.start < r.window.stop) →
      Submit st w b p win =
        .ok { st with
          ledger := ⟨st.nextId, w, b, p, win, RState.pending, none⟩ :: st.ledger,
          nextId := st.nextId + 1 }) := by
  have hbool : (st.ledger.any
      (fun r => decide (r.ws = w) && r.state.isActive && overlaps r.window win) = true) ↔
      ∃ r ∈ st.ledger, r.ws = w ∧
        (r.state = RState.pending ∨ r.state = RState.approved) ∧
        r.window.start < win.stop ∧ win.start < r.window.stop := by
    rw [List.any_eq_true]
    constructor
    · rintro ⟨r, hr, hprop⟩
      simp only [Bool.and_eq_true, decide_eq_true_eq] at hprop
      obtain ⟨⟨hws, hact⟩, hov⟩ := hprop
      exact ⟨r, hr, hws, (isActive_iff _).mp hact, (overlaps_iff _ _).mp hov⟩
    · rintro ⟨r, hr, hws, hact, hov⟩
      refine ⟨r, hr, ?_⟩
      simp only [Bool.and_eq_true, decide_eq_true_eq]
      exact ⟨⟨hws, (isActive_iff _).mpr hact⟩, (overlaps_iff _ _).mpr hov⟩
  unfold Submit
  rw [if_neg (fun hc => hc hex), if_neg (fun hc => hc hlt)]
  constructor
  · constructor
    · intro hsub
      by_cases hany : (st.ledger.any
          (fun r => decide (r.ws = w) && r.state.isActive && overlaps r.window win)) = true
      · exact hbool.mp hany
      · rw [if_neg hany] at hsub
        exact absurd hsub (by simp)
    · intro hex2
      rw [if_pos (hbool.mpr hex2)]
  · intro hno
    rw [if_neg (fun hany => hno (hbool.mp hany))]

/-- A one-site state with workstation (A, 1) and an empty ledger. -/
def stSite : EState := ⟨[⟨"A", [1]⟩], [], [], 0⟩

/-- Witness for C4: on the fresh site, submitting for (A, 1) succeeds with
a `Pending` record. -/
theorem C4_submit_witness :
    Submit stSite ⟨"A", 1⟩ "u" "p" ⟨0, 5⟩ =
      .ok { stSite with
        ledger := [⟨0, ⟨"A", 1⟩, "u", "p", ⟨0, 5⟩, RState.pending, none⟩],
        nextId := 1 } :=
  (C4_submit stSite ⟨"A", 1⟩ "u" "p" ⟨0, 5⟩ (by decide) (by decide)).2
    (by simp [stSite])

/-- C5: `Reject` fails with `InvalidState` on a non-`Pending` record,
`Return` and `Revoke` fail with `InvalidState` on a non-`Approved` record,
and no sequence of engine operations changes the state of a record that
has reached a terminal state. -/
theorem C5_state_machine :
    (∀ st i rc r, findReq st i = some r → ¬(r.state = RState.pending) →
      Reject st i rc = .error .invalidState) ∧
    (∀ st i r, findReq st i = some r → ¬(r.state = RState.approved) →
      ReturnReq st i = .error .invalidState) ∧
    (∀ st i rc r, findReq st i = some r → ¬(r.state = RState.approved) →
      Revoke st i rc = .error .invalidState) ∧
    (∀ st, Reachable st → ∀ r ∈ st.ledger, r.state.isTerminal = true →
      ∀ ops, ∃ r' ∈ (runOps ops st).ledger, r'.id = r.id ∧ r'.state = r.state) := by
  refine ⟨?_, ?_, ?_, ?_⟩
  · intro st i rc r hreq hns
    unfold Reject
    simp only [hreq]
    rw [if_pos hns]
  · intro st i r hreq hns
    unfold ReturnReq
    simp only [hreq]
    rw [if_pos hns]
  · intro st i rc r hreq hns
    unfold Revoke
    simp only [hreq]
    rw [if_pos hns]
  · intro st h r hr ht ops
    exact terminal_preserved_runOps ops (inv_reachable h) r hr ht

/-- Trace reaching a rejected request with id 0 on workstation (A, 1). -/
def traceRej : List Op :=
  [.createSite "A" [1], .submit ⟨"A", 1⟩ "u" "p" ⟨0, 5⟩, .reject 0 "no"]

/-- The state reached by `traceRej`. -/
def stRej : EState := runOps traceRej init

/-- The rejected record found in `stRej`. -/
def recRej : BorrowRequest := ⟨0, ⟨"A", 1⟩, "u", "p", ⟨0, 5⟩, RState.rejected, some "no"⟩

/-- Witness for C5: rejecting the already-rejected record fails with
`InvalidState`, and an attempted `Approve` leaves it `Rejected`. -/
theorem C5_state_machine_witness :
    Reject stRej 0 "again" = .error .invalidState ∧
    ∃ r' ∈ (runOps [Op.approve 0 "yes"] stRej).ledger,
      r'.id = recRej.id ∧ r'.state = recRej.state := by
  refine ⟨C5_state_machine.1 stRej 0 "again" recRej (by decide) (by decide), ?_⟩
  exact C5_state_machine.2.2.2 stRej ⟨traceRej, rfl⟩ recRej (by decide) (by decide)
    [Op.approve 0 "yes"]

/-- C6: a successful `Submit` never changes the Occupancy Index, and a
successful `Approve` of a `Pending` request is exactly the step that sets
the workstation's occupancy entry to that request (other workstations'
entries are untouched). -/
theorem C6_occupancy :
    (∀ st w b p win st', Submit st w b p win = .ok st' → st'.occ = st.occ) ∧
    (∀ st i rc r st', findReq st i = some r → r.state = RState.pending →
      Approve st i rc = .ok st' →
      occLookup st' r.ws = some i ∧
        ∀ w', ¬(w' = r.ws) → occLookup st' w' = occLookup st w') := by
  constructor
  · intro st w b p win st' h
    unfold Submit at h
    split_ifs at h
    rw [Except.ok.injEq] at h
    subst h
    rfl
  · intro st i rc r st' hreq hp h
    unfold Approve at h
    simp only [hreq] at h
    split_ifs at h with h1 h2
    rw [Except.ok.injEq] at h
    subst h
    constructor
    · show ((((r.ws, i) ::
          (st.occ.filter (fun e => !decide (e.1 = r.ws)))).find?
            (fun e => decide (e.1 = r.ws))).map (fun e => e.2)) = some i
      rw [List.find?_cons_of_pos _ (by simp)]
      rfl
    · intro w' hw'
      show ((((r.ws, i) ::
          (st.occ.filter (fun e => !decide (e.1 = r.ws)))).find?
            (fun e => decide (e.1 = w'))).map (fun e => e.2)) = occLookup st w'
      rw [List.find?_cons_of_neg _ (by
        simp only [decide_eq_true_eq]
        exact fun hc => hw' hc.symm)]
      rw [find?_filter_of_imp]
      · rfl
      · intro e he
        simp only [decide_eq_true_eq] at he
        simp only [Bool.not_eq_true', decide_eq_false_iff_not]
        rw [he]
        exact fun hc => hw' hc

/-- The state after submitting a pending request on (A, 1) in `stSite`. -/
def stPend : EState :=
  ⟨[⟨"A", [1]⟩], [⟨0, ⟨"A", 1⟩, "u", "p", ⟨0, 5⟩, RState.pending, none⟩], [], 1⟩

/-- The pending record of `stPend`. -/
def recPend : BorrowRequest := ⟨0, ⟨"A", 1⟩, "u", "p", ⟨0, 5⟩, RState.pending, none⟩

/-- The state after approving that request. -/
def stApp : EState :=
  ⟨[⟨"A", [1]⟩], [⟨0, ⟨"A", 1⟩, "u", "p", ⟨0, 5⟩, RState.approved, some "ok"⟩],
    [(⟨"A", 1⟩, 0)], 1⟩

/-- Witness for C6 at concrete inputs: the submit into `stPend` left the
index empty, and approving request 0 sets the entry of (A, 1) to it. -/
theorem C6_occupancy_witness :
    stPend.occ = stSite.occ ∧ occLookup stApp ⟨"A", 1⟩ = some 0 := by
  refine ⟨C6_occupancy.1 stSite ⟨"A", 1⟩ "u" "p" ⟨0, 5⟩ stPend rfl, ?_⟩
  exact (C6_occupancy.2 stPend 0 "ok" recPend stApp (by decide) (by decide) rfl).1

/-- The `Approved` requests of a workstation, by a scan of the Ledger. -/
def approvedOn (st : EState) (w : WS) : List BorrowRequest :=
  st.ledger.filter (fun r => decide (r.ws = w) && decide (r.state = RState.approved))

/-- A trace that approves two requests with disjoint windows on the same
workstation: `Approve` only re-checks for an overlapping `Approved`
window, so both approvals succeed. -/
def c1trace : List Op :=
  [.createSite "A" [1],
   .submit ⟨"A", 1⟩ "u" "p" ⟨10, 11⟩,
   .submit ⟨"A", 1⟩ "u" "p" ⟨20, 21⟩,
   .approve 0 "ok",
   .approve 1 "ok"]

/-- C1 is false as stated: a reachable state exists in which a workstation
has two `Approved` requests at the same time (their windows are disjoint,
so the `Approve`-time overlap re-check passes twice). -/
theorem C1_counterexample :
    Reachable (runOps c1trace init) ∧
    ¬(∀ w : WS, (approvedOn (runOps c1trace init) w).length ≤ 1) := by
  refine ⟨⟨c1trace, rfl⟩, ?_⟩
  intro hall
  exact absurd (hall ⟨"A", 1⟩) (by decide)

/-- C1 amended: in every reachable state the Occupancy Index holds at most
one entry per workstation, and every entry names an `Approved` request of
that workstation in the Ledger. (The converse direction of the claimed
agreement, and at-most-one-`Approved`-per-workstation, fail: see the
counterexample.) -/
theorem C1_occupancy_agreement {st : EState} (h : Reachable st) :
    (∀ w : WS, (st.occ.filter (fun e => decide (e.1 = w))).length ≤ 1) ∧
    (∀ w i, occLookup st w = some i →
      ∃ r ∈ st.ledger, r.id = i ∧ r.ws = w ∧ r.state = RState.approved) := by
  have inv := inv_reachable h
  refine ⟨fun w => length_filter_key_le_one inv.occKeysNodup w, ?_⟩
  intro w i hocc
  unfold occLookup at hocc
  cases hfe : st.occ.find? (fun e => decide (e.1 = w)) with
  | none => rw [hfe] at hocc; exact absurd hocc (by simp)
  | some e =>
    rw [hfe] at hocc
    simp only [Option.map_some', Option.some.injEq] at hocc
    have he := List.mem_of_find?_eq_some hfe
    have hew : e.1 = w := by
      have := List.find?_some hfe
      simpa using this
    obtain ⟨r, hr, hid, hws, hst⟩ := inv.occApproved e he
    exact ⟨r, hr, by rw [hid, hocc], by rw [hws, hew], hst⟩

/-- Trace reaching a state with one approved, occupying request. -/
def trace1 : List Op :=
  [.createSite "A" [1], .submit ⟨"A", 1⟩ "u" "p" ⟨0, 5⟩, .approve 0 "ok"]

/-- The occupied state reached by `trace1`. -/
def stOcc : EState := runOps trace1 init

/-- Witness for the amended C1 at a concrete occupied state: the index
entry of (A, 1) names the approved request 0. -/
theorem C1_occupancy_agreement_witness :
    ∃ r ∈ stOcc.ledger, r.id = 0 ∧ r.ws = (⟨"A", 1⟩ : WS) ∧
      r.state = RState.approved :=
  (C1_occupancy_agreement ⟨trace1, rfl⟩).2 ⟨"A", 1⟩ 0 (by decide)

/-- Witness for C3 at a concrete occupied state: deleting the site or
removing the occupied workstation fails with `ResourceBusy`. -/
theorem C3_busy_witness :
    DeleteSite stOcc "A" = .error .resourceBusy ∧
    RemoveWorkstations stOcc "A" [1] = .error .resourceBusy := by
  have h := C3_busy stOcc "A"
  refine ⟨h.1 (by decide), ?_⟩
  exact (h.2.2 [1] ⟨"A", [1]⟩ (by decide) (by decide) ⟨1, by decide, by decide⟩).1

/-- C8: creating a fresh site with numbers {1,2,3}, removing {2}, then
adding {2} again succeeds and yields a site whose workstation set equals
{1,2,3}, with every workstation of the site free in the Occupancy Index
and the Ledger (all prior history) untouched. -/
theorem C8_roundtrip {st : EState} (h : Reachable st) {name : String}
    (hfresh : findSite st name = none) :
    ∃ st1 st2 st3,
      CreateSite st name [1, 2, 3] = .ok st1 ∧
      RemoveWorkstations st1 name [2] = .ok st2 ∧
      AddWorkstations st2 name [2] = .ok st3 ∧
      (∃ s, findSite st3 name = some s ∧
        ∀ n, n ∈ s.numbers ↔ (n = 1 ∨ n = 2 ∨ n = 3)) ∧
      (∀ k, occLookup st3 ⟨name, k⟩ = none) ∧
      st3.ledger = st.ledger := by
  have inv := inv_reachable h
  have hnomem := not_name_mem_of_findSite_none hfresh
  have hoccnone : ∀ k, occLookup st ⟨name, k⟩ = none := by
    intro k
    apply occLookup_none_of_not_wsExists inv
    show (match findSite st name with
      | some s => s.numbers.contains k
      | none => false) = false
    rw [hfresh]
  have h1 : CreateSite st name [1, 2, 3] =
      .ok { st with sites := ⟨name, [1, 2, 3]⟩ :: st.sites } := by
    unfold CreateSite
    rw [if_neg (by simp [hfresh]), if_neg (by decide), if_neg (by decide),
      if_neg (by decide)]
  have hfind1 : findSite { st with sites := (⟨name, [1, 2, 3]⟩ : Site) :: st.sites }
      name = some ⟨name, [1, 2, 3]⟩ := by
    rw [findSite_mk]
    exact List.find?_cons_of_pos _ (by simp)
  have hocc1 : IsOccupied { st with sites := (⟨name, [1, 2, 3]⟩ : Site) :: st.sites }
      ⟨name, 2⟩ = false := by
    show (occLookup st ⟨name, 2⟩).isSome = false
    rw [hoccnone]
    rfl
  have hupd2 : updateSite { st with sites := (⟨name, [1, 2, 3]⟩ : Site) :: st.sites }
      name (fun s0 => { s0 with numbers := s0.numbers.filter (fun n => !([2].contains n)) }) =
      { st with sites := ⟨name, [1, 3]⟩ :: st.sites } := by
    unfold updateSite
    rw [List.map_cons, map_updateSite_id hnomem]
    congr 2
    rw [if_pos rfl]
    rfl
  have h2 : RemoveWorkstations { st with sites := (⟨name, [1, 2, 3]⟩ : Site) :: st.sites }
      name [2] = .ok { st with sites := ⟨name, [1, 3]⟩ :: st.sites } := by
    unfold RemoveWorkstations
    simp only [hfind1]
    rw [if_neg (by decide), if_neg (by simp [hocc1])]
    rw [hupd2]
  have hfind2 : findSite { st with sites := (⟨name, [1, 3]⟩ : Site) :: st.sites }
      name = some ⟨name, [1, 3]⟩ := by
    rw [findSite_mk]
    exact List.find?_cons_of_pos _ (by simp)
  have hupd3 : updateSite { st with sites := (⟨name, [1, 3]⟩ : Site) :: st.sites }
      name (fun s0 => { s0 with numbers := s0.numbers ++ [2] }) =
      { st with sites := ⟨name, [1, 3, 2]⟩ :: st.sites } := by
    unfold updateSite
    rw [List.map_cons, map_updateSite_id hnomem]
    congr 2
    rw [if_pos rfl]
    rfl
  have h3 : AddWorkstations { st with sites := (⟨name, [1, 3]⟩ : Site) :: st.sites }
      name [2] = .ok { st with sites := ⟨name, [1, 3, 2]⟩ :: st.sites } := by
    unfold AddWorkstations
    simp only [hfind2]
    rw [if_neg (by decide), if_neg (by decide), if_neg (by decide),
      if_neg (by decide)]
    rw [hupd3]
  refine ⟨_, _, _, h1, h2, h3, ⟨⟨name, [1, 3, 2]⟩, ?_, ?_⟩, ?_, rfl⟩
  · rw [findSite_mk]
    exact List.find?_cons_of_pos _ (by simp)
  · intro n
    show n ∈ [1, 3, 2] ↔ (n = 1 ∨ n = 2 ∨ n = 3)
    simp only [List.mem_cons, List.not_mem_nil, or_false]
    tauto
  · intro k
    exact hoccnone k

/-- Witness for C8 in the empty initial state with site `Lab-A`. -/
theorem C8_roundtrip_witness :
    ∃ st1 st2 st3,
      CreateSite init "Lab-A" [1, 2, 3] = .ok st1 ∧
      RemoveWorkstations st1 "Lab-A" [2] = .ok st2 ∧
      AddWorkstations st2 "Lab-A" [2] = .ok st3 ∧
      (∃ s, findSite st3 "Lab-A" = some s ∧
        ∀ n, n ∈ s.numbers ↔ (n = 1 ∨ n = 2 ∨ n = 3)) ∧
      (∀ k, occLookup st3 ⟨"Lab-A", k⟩ = none) ∧
      st3.ledger = init.ledger :=
  C8_roundtrip ⟨[], rfl⟩ rfl

set_option maxRecDepth 8000 in
set_option exponentiation.threshold 1100 in
/-- C10: the site-creation handler sends exactly the numbers obtained by
splitting the workstations input on commas, trimming and `parseInt`-ing
each token (ECMAScript whitespace and binary64 semantics) and dropping
the `NaN`s; when that list is empty no request is sent at all; and no
de-duplication is performed (duplicates like `2,2` go through as
`[2, 2]`). The last conjuncts exercise the pipeline: vertical-tab
whitespace is trimmed, and a digit string beyond `2^53` is rounded to the
nearest double. -/
theorem C10_handleCreate (site input : String) :
    (handleCreateBody site input = none ↔ parseWorkstations input = []) ∧
    (parseWorkstations input ≠ [] →
      handleCreateBody site input = some (site, parseWorkstations input)) ∧
    parseWorkstations "2,2" = [JsNum.finite 2, JsNum.finite 2] ∧
    parseWorkstations "\x0B5" = [JsNum.finite 5] ∧
    parseWorkstations "9007199254740993" = [JsNum.finite 9007199254740992] := by
  have hEmpIff : (parseWorkstations input).isEmpty = true ↔
      parseWorkstations input = [] := by
    cases parseWorkstations input <;> simp [List.isEmpty]
  refine ⟨?_, ?_, by decide, by decide, by decide⟩
  · show (if (parseWorkstations input).isEmpty = true then none
      else some (site, parseWorkstations input)) = none ↔ parseWorkstations input = []
    by_cases hemp : (parseWorkstations input).isEmpty = true
    · rw [if_pos hemp]
      simp [hEmpIff.mp hemp]
    · rw [if_neg hemp]
      exact iff_of_false (by simp) (fun hc => hemp (hEmpIff.mpr hc))
  · intro hne
    show (if (parseWorkstations input).isEmpty = true then none
      else some (site, parseWorkstations input)) = some (site, parseWorkstations input)
    rw [if_neg (fun hemp => hne (hEmpIff.mp hemp))]

/-- Witness for C10 at a concrete input: `"1, 2,abc, 3 ,2"` parses to
`[1, 2, 3, 2]` (order kept, `abc` dropped, the duplicate kept) and is sent
as-is. -/
theorem C10_handleCreate_witness :
    parseWorkstations "1, 2,abc, 3 ,2" ≠ [] ∧
    handleCreateBody "Lab" "1, 2,abc, 3 ,2" =
      some ("Lab", [JsNum.finite 1, JsNum.finite 2, JsNum.finite 3, JsNum.finite 2]) := by
  refine ⟨by decide, ?_⟩
  have h := (C10_handleCreate "Lab" "1, 2,abc, 3 ,2").2.1 (by decide)
  rw [h, show parseWorkstations "1, 2,abc, 3 ,2" =
    [JsNum.finite 1, JsNum.finite 2, JsNum.finite 3, JsNum.finite 2] from by decide]

end MakersHub
